import Mathlib

/-!
# ESP32 Emu Turbo hardware test harness

A shallow embedding of the button table and reader (`input.c`), of the
polling loop of `interactive_loop` (`main.c`: edge detection, the button
indicators and the poll-rate counter), of the status display (`main.c`:
`draw_rect`, `draw_status`), of the colour bars (`display.c`) and of the power
management (`power.c`), followed by the properties proved about them.

Conventions of the embedding:

* `uint16_t` values are natural numbers; a store into a `uint16_t` variable is
  `to_uint16` (reduction modulo `2^16`);
* `int` and `int64_t` values are integers; the result of a signed operation is
  brought back into the type by `wrap_int32` / `wrap_int64`;
* `gpio_num_t` is the pin number (`GPIO_NUM_n` is `n`);
* `float` values are the rationals they denote, and every `float` operation
  rounds its exact result to binary32 (`f32_round`);
* the display is seen through the calls of `esp_lcd_panel_draw_bitmap`
  (`DrawBitmap`), and the IP5306 through the outcome of a register read for
  each register address.
-/

namespace Esp32EmuTurbo

/-! ## Machine integers -/

/-- Store into a `uint16_t` variable. -/
def to_uint16 (n : Nat) : Nat := n % 65536

/-- Two's complement reduction of an integer into the range of `int`. -/
def wrap_int32 (z : Int) : Int := (z + 2147483648) % 4294967296 - 2147483648

/-- Two's complement reduction of an integer into the range of `int64_t`. -/
def wrap_int64 (z : Int) : Int :=
  (z + 9223372036854775808) % 18446744073709551616 - 9223372036854775808

/-! ## board_config.h -/

def LCD_H_RES : Nat := 320
def LCD_V_RES : Nat := 480

def BTN_UP : Nat := 40
def BTN_DOWN : Nat := 41
def BTN_LEFT : Nat := 42
def BTN_RIGHT : Nat := 1
def BTN_A : Nat := 2
def BTN_B : Nat := 48
def BTN_X : Nat := 47
def BTN_Y : Nat := 21
def BTN_START : Nat := 18
def BTN_SELECT : Nat := 0
def BTN_L : Nat := 35
def BTN_R : Nat := 19

def BTN_MASK_UP : Nat := 1 <<< 0
def BTN_MASK_DOWN : Nat := 1 <<< 1
def BTN_MASK_LEFT : Nat := 1 <<< 2
def BTN_MASK_RIGHT : Nat := 1 <<< 3
def BTN_MASK_A : Nat := 1 <<< 4
def BTN_MASK_B : Nat := 1 <<< 5
def BTN_MASK_X : Nat := 1 <<< 6
def BTN_MASK_Y : Nat := 1 <<< 7
def BTN_MASK_START : Nat := 1 <<< 8
def BTN_MASK_SELECT : Nat := 1 <<< 9
def BTN_MASK_L : Nat := 1 <<< 10
def BTN_MASK_R : Nat := 1 <<< 11

/-! ## input.c -/

/-- One row of the GPIO-to-bitmask mapping table. -/
structure ButtonEntry where
  gpio : Nat
  mask : Nat
  name : String
  deriving DecidableEq, Repr

/-- The table `s_buttons`, in source order. -/
def s_buttons : List ButtonEntry :=
  [ ⟨BTN_UP,     BTN_MASK_UP,     "UP"⟩,
    ⟨BTN_DOWN,   BTN_MASK_DOWN,   "DOWN"⟩,
    ⟨BTN_LEFT,   BTN_MASK_LEFT,   "LEFT"⟩,
    ⟨BTN_RIGHT,  BTN_MASK_RIGHT,  "RIGHT"⟩,
    ⟨BTN_A,      BTN_MASK_A,      "A"⟩,
    ⟨BTN_B,      BTN_MASK_B,      "B"⟩,
    ⟨BTN_X,      BTN_MASK_X,      "X"⟩,
    ⟨BTN_Y,      BTN_MASK_Y,      "Y"⟩,
    ⟨BTN_START,  BTN_MASK_START,  "START"⟩,
    ⟨BTN_SELECT, BTN_MASK_SELECT, "SELECT"⟩,
    ⟨BTN_L,      BTN_MASK_L,      "L"⟩,
    ⟨BTN_R,      BTN_MASK_R,      "R"⟩ ]

/-- The macro `NUM_BUTTONS`: the number of rows of `s_buttons`. -/
def NUM_BUTTONS : Nat := s_buttons.length

/-- The body of the loop of `input_read` for one table row: the row's mask is
or-ed into `state` when the row's pin reads level 0 (active-low). -/
def input_read_step (gpio_get_level : Nat → Int) (state : Nat) (b : ButtonEntry) : Nat :=
  if gpio_get_level b.gpio = 0 then to_uint16 (state ||| b.mask) else state

/-- The function `input_read`, given the level read on every pin. -/
def input_read (gpio_get_level : Nat → Int) : Nat :=
  s_buttons.foldl (input_read_step gpio_get_level) 0

/-- The function `input_button_name`: the table is indexed only under the
guard `bit >= 0 && bit < (int)NUM_BUTTONS`. -/
def input_button_name (bit : Int) : String :=
  if h : 0 ≤ bit ∧ bit < (NUM_BUTTONS : Int) then
    (s_buttons.get ⟨bit.toNat, by
      have h12 : (NUM_BUTTONS : Int) = 12 := rfl
      have hlen : s_buttons.length = 12 := rfl
      omega⟩).name
  else "?"

/-! ## main.c: edge detection in `interactive_loop` -/

/-- The content of one `Button %s: %s` log line: the bit position whose name
is printed and whether the text is `PRESSED` (otherwise `RELEASED`). -/
structure ChangeEvent where
  bit : Nat
  pressed : Bool
  deriving DecidableEq, Repr

/-- The text of the log line of an event. -/
def ChangeEvent.text (e : ChangeEvent) : String :=
  "Button " ++ input_button_name e.bit ++ ": " ++ (if e.pressed then "PRESSED" else "RELEASED")

/-- The logging loop `for (int i = 0; i < 12; i++)`: a line for every `i` with
`changed & (1 << i)` non-zero, its direction taken from `state & (1 << i)`. -/
def log_changes (state changed : Nat) : List ChangeEvent :=
  ((List.range 12).filter (fun i => changed &&& (1 <<< i) ≠ 0)).map
    (fun i => ⟨i, decide (state &&& (1 <<< i) ≠ 0)⟩)

/-- The button part of one iteration of the polling loop: from `prev_state`
and the sample `state`, the lines logged and the new value of `prev_state`. -/
def poll_buttons (prev_state state : Nat) : List ChangeEvent × Nat :=
  if state ≠ prev_state then
    (log_changes state (to_uint16 (state ^^^ prev_state)), state)
  else ([], prev_state)

/-- The change events of one poll iteration (`previous`, then `current`). -/
def detect_changes (previous current : Nat) : List ChangeEvent :=
  (poll_buttons previous current).1

/-- Hamming weight: the sum of the binary digits. -/
def hamming_weight (n : Nat) : Nat := (Nat.digits 2 n).sum

/-! ## binary32 arithmetic

A `float` is modelled by the rational it denotes. Every operation computes the
exact result and rounds it to the nearest value with a 24-bit significand, ties
to even. The exponent range of binary32 is not modelled (no overflow to
infinity, no subnormal numbers): the operands of the poll-rate expression, an
`int` times `1000000` divided by an `int64_t` of at least `5000000`, keep every
intermediate value either zero or of magnitude between `2^-44` and `2^51`. -/

/-- Rounding of a rational to the nearest integer, ties to the even one. -/
def round_half_even (q : ℚ) : Int :=
  let f := ⌊q⌋
  let r := q - f
  if r < 1 / 2 then f else if 1 / 2 < r then f + 1 else if f % 2 = 0 then f else f + 1

/-- Rounding of a rational to the nearest value with a 24-bit significand
(round to nearest, ties to even): the rounding of binary32. -/
def f32_round (q : ℚ) : ℚ :=
  if q = 0 then 0 else
    let e : Int := Int.log 2 |q| - 23
    (round_half_even (q / 2 ^ e) : ℚ) * 2 ^ e

/-- The conversion `(float)z` of an integer. -/
def f32_of_int (z : Int) : ℚ := f32_round (z : ℚ)

/-- The `float` product. -/
def f32_mul (x y : ℚ) : ℚ := f32_round (x * y)

/-- The `float` quotient, for a non-zero divisor. -/
def f32_div (x y : ℚ) : ℚ := f32_round (x / y)

/-! ## main.c: the FPS counter of `interactive_loop` -/

/-- The expression `(float)frame_count * 1000000.0f / (float)elapsed`. -/
def poll_rate (frame_count elapsed : Int) : ℚ :=
  f32_div (f32_mul (f32_of_int frame_count) 1000000) (f32_of_int elapsed)

/-- The state of the poll-rate counter of `interactive_loop`. -/
structure RateWindow where
  frame_count : Int
  fps_start : Int
  deriving DecidableEq, Repr

/-- The FPS counter of one iteration of the polling loop, `now` being the
value returned by `esp_timer_get_time()`: the rate logged, if any, and the new
values of `frame_count` and `fps_start`. -/
def fps_counter (s : RateWindow) (now : Int) : Option ℚ × RateWindow :=
  let frame_count := wrap_int32 (s.frame_count + 1)
  let elapsed := wrap_int64 (now - s.fps_start)
  if 5000000 ≤ elapsed then
    (some (poll_rate frame_count elapsed), ⟨0, now⟩)
  else (none, ⟨frame_count, s.fps_start⟩)

/-- Successive iterations of the FPS counter, one per timestamp: what each
iteration logged and the final state. -/
def fps_counter_run (s : RateWindow) : List Int → List (Option ℚ) × RateWindow
  | [] => ([], s)
  | now :: rest =>
    ((fps_counter s now).1 :: (fps_counter_run (fps_counter s now).2 rest).1,
      (fps_counter_run (fps_counter s now).2 rest).2)

/-! ## power.c -/

def IP5306_REG_SYS_CTL0 : Nat := 0x00
def IP5306_REG_READ0 : Nat := 0x70
def IP5306_REG_READ1 : Nat := 0x71
def IP5306_REG_READ2 : Nat := 0x78

/-- The function `ip5306_read_reg`: the one-byte register read over I2C. The
device is given by `i2c`, the outcome of the transfer for each register
address: `none` when the transfer does not return `ESP_OK`, otherwise the byte
stored into `*val`. -/
def ip5306_read_reg (i2c : Nat → Option Nat) (reg : Nat) : Option Nat :=
  i2c reg

/-- The function `power_get_battery_percent`, given the flag `s_available`
and the device. -/
def power_get_battery_percent (s_available : Bool) (i2c : Nat → Option Nat) : Int :=
  if !s_available then -1
  else
    match ip5306_read_reg i2c IP5306_REG_READ2 with
    | none => -1
    | some val =>
      let level := val &&& 0x0F
      if level = 0x0F then 100
      else if level = 0x07 then 75
      else if level = 0x03 then 50
      else if level = 0x01 then 25
      else 0

/-- The result code `ESP_OK` of `esp_err.h` (ESP-IDF). -/
def ESP_OK : Int := 0

/-- The result code `ESP_ERR_NO_MEM` of `esp_err.h` (ESP-IDF). -/
def ESP_ERR_NO_MEM : Int := 0x101

/-- The result code `ESP_ERR_NOT_FOUND` of `esp_err.h` (ESP-IDF). -/
def ESP_ERR_NOT_FOUND : Int := 0x105

/-- The address of `READ0` (charge status bits) in the register map written
in the comment at the top of `power.c`. -/
def REGISTER_MAP_READ0 : Nat := 0x78

/-- The address of `READ2` (battery level, 4 LEDs) in the register map written
in the comment at the top of `power.c`. -/
def REGISTER_MAP_READ2 : Nat := 0x7A

/-- The function `power_is_charging`, given the flag `s_available` and the
device. -/
def power_is_charging (s_available : Bool) (i2c : Nat → Option Nat) : Bool :=
  if !s_available then false
  else
    match ip5306_read_reg i2c IP5306_REG_READ0 with
    | none => false
    | some val => (val &&& 0x08) == 0

/-- The function `power_init`: `bus_ret` and `dev_ret` are the results of
`i2c_new_master_bus` and `i2c_master_bus_add_device`, `i2c` is the device that
the probe reads. The value returned and the new value of `s_available`. -/
def power_init (s_available : Bool) (bus_ret dev_ret : Int) (i2c : Nat → Option Nat) :
    Int × Bool :=
  if bus_ret ≠ ESP_OK then (bus_ret, s_available)
  else if dev_ret ≠ ESP_OK then (dev_ret, s_available)
  else
    match ip5306_read_reg i2c IP5306_REG_READ0 with
    | some _ => (ESP_OK, true)
    | none => (ESP_OK, false)

/-! ## main.c: successive polls -/

/-- Successive iterations of the polling loop, one per sample returned by
`input_read`: for each iteration the lines logged and the value of
`prev_state` after it. -/
def poll_run (prev_state : Nat) : List Nat → List (List ChangeEvent × Nat)
  | [] => []
  | state :: rest =>
    poll_buttons prev_state state :: poll_run (poll_buttons prev_state state).2 rest

/-- Toggling, in a mask, the bit named by an event. -/
def toggle_event (mask : Nat) (e : ChangeEvent) : Nat := mask ^^^ (1 <<< e.bit)

/-! ## main.c: the status display -/

def COLOR_BLACK : Nat := 0x0000
def COLOR_WHITE : Nat := 0xFFFF
def COLOR_RED : Nat := 0xF800
def COLOR_GREEN : Nat := 0x07E0
def COLOR_BLUE : Nat := 0x001F
def COLOR_YELLOW : Nat := 0xFFE0
def COLOR_CYAN : Nat := 0x07FF

/-- The values taken by the variable of a loop
`for (v = start; v < bound1 && v < bound2; v++)` in the iterations that run
its body, `n` bounding the number of iterations. -/
def loop_values (bound1 bound2 : Int) : Nat → Int → List Int
  | 0, _ => []
  | n + 1, v =>
    if v < bound1 ∧ v < bound2 then v :: loop_values bound1 bound2 n (v + 1) else []

/-- One call `esp_lcd_panel_draw_bitmap(panel, x_start, y_start, x_end, y_end,
color_data)`: the window and the pixel words of the buffer passed, `none`
standing for a word that was never written. -/
structure DrawBitmap where
  x_start : Int
  y_start : Int
  x_end : Int
  y_end : Int
  color_data : List (Option Nat)
  deriving DecidableEq, Repr

/-- The function `draw_rect`: the calls of `esp_lcd_panel_draw_bitmap` it
makes. `panel` tells whether `display_get_panel()` is non-NULL and `alloc_ok`
whether `heap_caps_malloc` returns a buffer. The scanline loop runs at most `h`
times, which bounds its iterations. -/
def draw_rect (panel alloc_ok : Bool) (x y w h : Int) (color : Nat) : List DrawBitmap :=
  if !panel then []
  else if !alloc_ok then []
  else
    (loop_values (wrap_int32 (y + h)) LCD_V_RES h.toNat y).map
      (fun row => ⟨x, row, wrap_int32 (x + w), row + 1, List.replicate w.toNat (some color)⟩)

/-- The function `draw_status`. -/
def draw_status (panel alloc_ok : Bool) (row : Int) (color : Nat) : List DrawBitmap :=
  draw_rect panel alloc_ok 10 (wrap_int32 (10 + wrap_int32 (row * 50))) 300 40 color

/-! ## display.c: the colour bars -/

/-- The table `colors` of `display_draw_color_bars`. -/
def colors : List Nat :=
  [0xF800, 0x07E0, 0x001F, 0xFFFF, 0x0000, 0x07FF, 0xF81F, 0xFFE0]

/-- The constant `bar_width` of `display_draw_color_bars`. -/
def bar_width : Int := (LCD_H_RES : Int) / 8

/-- The stores `row[x] = colors[b]` made by the two fill loops of
`display_draw_color_bars`, in execution order: the index and the value. The
inner loop runs at most `bar_width` times, which bounds its iterations. -/
def color_bars_stores : List (Int × Nat) :=
  (List.finRange colors.length).flatMap (fun b =>
    (loop_values ((((b : Nat) : Int) + 1) * bar_width) LCD_H_RES bar_width.toNat
        (((b : Nat) : Int) * bar_width)).map
      (fun x => (x, colors.get b)))

/-- A store into a buffer of pixel words. -/
def store_pixel (buf : List (Option Nat)) (s : Int × Nat) : List (Option Nat) :=
  buf.set s.1.toNat (some s.2)

/-- The row buffer of `display_draw_color_bars` after the fill loops: it is
allocated with `LCD_H_RES` unwritten words. -/
def color_bars_row : List (Option Nat) :=
  color_bars_stores.foldl store_pixel (List.replicate LCD_H_RES none)

/-- The function `display_draw_color_bars`: the value returned and the calls
of `esp_lcd_panel_draw_bitmap` made, `alloc_ok` telling whether
`heap_caps_malloc` returns a buffer. -/
def display_draw_color_bars (alloc_ok : Bool) : Int × List DrawBitmap :=
  if !alloc_ok then (ESP_ERR_NO_MEM, [])
  else
    (ESP_OK, (List.range LCD_V_RES).map
      (fun y : Nat => ⟨0, (y : Int), LCD_H_RES, (y : Int) + 1, color_bars_row⟩))

/-! ## main.c: the button indicators of `interactive_loop` -/

/-- The body of the indicator loop for button `i`: one `draw_rect` call. -/
def draw_button_indicator (panel alloc_ok : Bool) (state : Nat) (i : Nat) : List DrawBitmap :=
  let y_base : Int := (LCD_V_RES : Int) - 60
  let x : Int := 10 + ((i : Int) % 6) * 50
  let y : Int := y_base + ((i : Int) / 6) * 25
  let color : Nat := if state &&& (1 <<< i) ≠ 0 then COLOR_CYAN else COLOR_BLACK
  draw_rect panel alloc_ok x y 40 20 color

/-- The indicator loop `for (int i = 0; i < 12; i++)`, `alloc_ok i` telling
whether the buffer of the rectangle of button `i` is allocated. -/
def draw_button_indicators (panel : Bool) (alloc_ok : Nat → Bool) (state : Nat) :
    List DrawBitmap :=
  (List.range 12).flatMap (fun i => draw_button_indicator panel (alloc_ok i) state i)

/-- The display part of one iteration of the polling loop. -/
def poll_display (panel : Bool) (alloc_ok : Nat → Bool) (prev_state state : Nat) :
    List DrawBitmap :=
  if state ≠ prev_state then draw_button_indicators panel alloc_ok state else []

/-! ## Lemmas on bit masks -/

theorem and_one_shiftLeft_ne_zero (x i : Nat) :
    (x &&& (1 <<< i) ≠ 0) ↔ x.testBit i = true := by
  rw [Nat.one_shiftLeft, Nat.and_two_pow]
  cases h : x.testBit i <;> simp

theorem hamming_weight_step (x : Nat) :
    hamming_weight x = (if x.testBit 0 then 1 else 0) + hamming_weight (x / 2) := by
  unfold hamming_weight
  rcases Nat.eq_zero_or_pos x with h | h
  · subst h; simp
  · rw [Nat.digits_def' (by norm_num) h, List.sum_cons, Nat.testBit_zero]
    rcases Nat.mod_two_eq_zero_or_one x with h2 | h2 <;> simp [h2]

theorem filter_testBit_length (k : Nat) : ∀ x : Nat, x < 2 ^ k →
    ((List.range k).filter (fun i => x.testBit i)).length = hamming_weight x := by
  induction k with
  | zero =>
    intro x hx
    have : x = 0 := by simpa using hx
    subst this
    simp [hamming_weight]
  | succ k ih =>
    intro x hx
    have hx2 : x / 2 < 2 ^ k := by
      rw [Nat.div_lt_iff_lt_mul (by norm_num)]
      simpa [pow_succ] using hx
    rw [List.range_succ_eq_map, List.filter_cons, List.filter_map, hamming_weight_step x]
    have hcomp : ((fun i => x.testBit i) ∘ Nat.succ) = (fun i => (x / 2).testBit i) := by
      funext i
      simp [Nat.testBit_succ]
    rw [hcomp]
    cases h0 : x.testBit 0
    · simp [ih _ hx2]
    · simp [ih _ hx2]; omega

/-- The positions visited by the logging loop that produce a line. -/
theorem log_changes_bits (state changed : Nat) :
    (log_changes state changed).map ChangeEvent.bit
      = (List.range 12).filter (fun i => changed.testBit i) := by
  unfold log_changes
  rw [List.map_map]
  have hid : (ChangeEvent.bit ∘ fun i => (⟨i, decide (state &&& (1 <<< i) ≠ 0)⟩ : ChangeEvent))
      = id := by
    funext i; rfl
  rw [hid, List.map_id]
  congr 1
  funext i
  have := and_one_shiftLeft_ne_zero changed i
  by_cases h : changed.testBit i = true
  · simp [h, this.2 h]
  · have h2 : ¬ (changed &&& (1 <<< i) ≠ 0) := fun hc => h (this.1 hc)
    simp only [ne_eq, Bool.not_eq_true] at h h2 ⊢
    simp [h, h2]

theorem mem_log_changes (state changed : Nat) (e : ChangeEvent) :
    e ∈ log_changes state changed ↔
      e.bit < 12 ∧ changed.testBit e.bit = true ∧ e.pressed = state.testBit e.bit := by
  unfold log_changes
  simp only [List.mem_map, List.mem_filter, List.mem_range, decide_eq_true_eq,
    and_one_shiftLeft_ne_zero]
  constructor
  · rintro ⟨i, ⟨hi, hc⟩, rfl⟩
    refine ⟨hi, hc, ?_⟩
    cases hs : state.testBit i <;> simp
  · rintro ⟨hi, hc, hp⟩
    refine ⟨e.bit, ⟨hi, hc⟩, ?_⟩
    cases e with
    | mk b pr =>
      simp only at hp hc hi ⊢
      rw [hp]
      cases hs : state.testBit b <;> simp

theorem to_uint16_testBit (x i : Nat) (hi : i < 16) :
    (to_uint16 x).testBit i = x.testBit i := by
  have : to_uint16 x = x % 2 ^ 16 := rfl
  rw [this, Nat.testBit_mod_two_pow]
  simp [hi]

theorem to_uint16_of_lt (x : Nat) (h : x < 65536) : to_uint16 x = x :=
  Nat.mod_eq_of_lt h

theorem hamming_weight_eq_zero (x : Nat) : hamming_weight x = 0 ↔ x = 0 := by
  constructor
  · intro h
    by_contra hx
    have hpos : 0 < x := Nat.pos_of_ne_zero hx
    have hlast := Nat.getLast_digit_ne_zero 2 hx
    have hmem : (Nat.digits 2 x).getLast (Nat.digits_ne_nil_iff_ne_zero.mpr hx)
        ∈ Nat.digits 2 x := List.getLast_mem _
    have hle := List.single_le_sum (l := Nat.digits 2 x) (by intro y _; exact Nat.zero_le y) _ hmem
    unfold hamming_weight at h
    omega
  · rintro rfl
    simp [hamming_weight]

/-! ## Edge detection -/

theorem detect_changes_length (p c : Nat) (hp : p < 4096) (hc : c < 4096) :
    (detect_changes p c).length = hamming_weight (p ^^^ c) := by
  unfold detect_changes poll_buttons
  by_cases h : c = p
  · subst h
    simp [hamming_weight]
  · have hx : c ^^^ p < 2 ^ 12 :=
      Nat.xor_lt_two_pow (n := 12) (by simpa using hc) (by simpa using hp)
    have hlen : (log_changes c (to_uint16 (c ^^^ p))).length
        = ((log_changes c (to_uint16 (c ^^^ p))).map ChangeEvent.bit).length := by
      rw [List.length_map]
    rw [if_pos h]
    show (log_changes c (to_uint16 (c ^^^ p))).length = _
    rw [hlen, log_changes_bits, to_uint16_of_lt _ (by omega), filter_testBit_length 12 _ hx,
      Nat.xor_comm]

/-- C1: for 12-bit masks `p` (previous) and `c` (current), one poll iteration
logs no button line if and only if `p = c`; in particular `detect_changes m m`
is empty for every mask `m`. -/
theorem C1_no_event_iff_unchanged (p c : Nat) (hp : p < 4096) (hc : c < 4096) :
    (detect_changes p c = [] ↔ p = c) ∧ (∀ m : Nat, detect_changes m m = []) := by
  refine ⟨?_, fun m => by simp [detect_changes, poll_buttons]⟩
  rw [← List.length_eq_zero, detect_changes_length p c hp hc, hamming_weight_eq_zero]
  constructor
  · intro h
    have := Nat.xor_cancel_left p c
    rw [h] at this
    simpa using this
  · rintro rfl
    exact Nat.xor_self p

theorem C1_no_event_iff_unchanged_witness :
    (3 : Nat) < 4096 ∧ (1 : Nat) < 4096 ∧
      ((detect_changes 3 1 = [] ↔ (3 : Nat) = 1) ∧ (∀ m : Nat, detect_changes m m = [])) :=
  ⟨by decide, by decide, C1_no_event_iff_unchanged 3 1 (by decide) (by decide)⟩

/-- C2: for 12-bit masks `p` and `c`, the number of button lines logged by one
poll iteration is the Hamming weight of `p XOR c`; from no button pressed to
UP pressed there is exactly one line, `UP` `PRESSED`. -/
theorem C2_event_count_is_hamming_weight (p c : Nat) (hp : p < 4096) (hc : c < 4096) :
    (detect_changes p c).length = hamming_weight (p ^^^ c) ∧
      detect_changes 0b000000000000 0b000000000001 = [⟨0, true⟩] ∧
      (detect_changes 0b000000000000 0b000000000001).map ChangeEvent.text
        = ["Button UP: PRESSED"] :=
  ⟨detect_changes_length p c hp hc, by decide, by decide⟩

theorem C2_event_count_is_hamming_weight_witness :
    (0 : Nat) < 4096 ∧ (1 : Nat) < 4096 ∧
      (detect_changes 0 1).length = hamming_weight (0 ^^^ 1) :=
  ⟨by decide, by decide, (C2_event_count_is_hamming_weight 0 1 (by decide) (by decide)).1⟩

/-- C3: every button line logged by one poll iteration says `PRESSED` exactly
when that bit of the current mask `c` is set and `RELEASED` exactly when it is
clear, and that bit of the previous mask `p` is the opposite; from UP+DOWN to
UP alone the only line is `DOWN` `RELEASED`. -/
theorem C3_direction_is_current_bit (p c : Nat) (e : ChangeEvent) (he : e ∈ detect_changes p c) :
    (e.pressed = true ↔ c.testBit e.bit = true) ∧
      (e.pressed = false ↔ c.testBit e.bit = false) ∧
      p.testBit e.bit = !c.testBit e.bit ∧
      (e.pressed = true ↔ c &&& (1 <<< e.bit) ≠ 0) ∧
      detect_changes 0b11 0b01 = [⟨1, false⟩] ∧
      (detect_changes 0b11 0b01).map ChangeEvent.text = ["Button DOWN: RELEASED"] := by
  have hmem : e.bit < 12 ∧ (c ^^^ p).testBit e.bit = true ∧ e.pressed = c.testBit e.bit := by
    unfold detect_changes poll_buttons at he
    by_cases h : c = p
    · simp [h] at he
    · rw [if_pos h] at he
      have := (mem_log_changes _ _ _).1 he
      rwa [to_uint16_testBit _ _ (by omega)] at this
  obtain ⟨_, hx, hpr⟩ := hmem
  rw [Nat.testBit_xor] at hx
  refine ⟨by rw [hpr], by rw [hpr], ?_, ?_, by decide, by decide⟩
  · cases hcb : c.testBit e.bit <;> cases hpb : p.testBit e.bit <;> simp_all
  · rw [and_one_shiftLeft_ne_zero, hpr]

theorem C3_direction_is_current_bit_witness :
    (⟨1, false⟩ : ChangeEvent) ∈ detect_changes 3 1 ∧
      Nat.testBit 1 1 = false ∧ Nat.testBit 3 1 = !Nat.testBit 1 1 :=
  ⟨by decide,
    ((C3_direction_is_current_bit 3 1 ⟨1, false⟩ (by decide)).2.1).1 rfl,
    (C3_direction_is_current_bit 3 1 ⟨1, false⟩ (by decide)).2.2.1⟩

/-- C4: the button lines logged by one poll iteration come in strictly
ascending bit position, all below 12, so no button occurs twice. -/
theorem C4_events_strictly_ascending (p c : Nat) :
    ((detect_changes p c).map ChangeEvent.bit).Pairwise (fun a b => a < b) ∧
      ((detect_changes p c).map ChangeEvent.bit).Nodup ∧
      (∀ e ∈ detect_changes p c, e.bit < 12) := by
  have hpw : ((detect_changes p c).map ChangeEvent.bit).Pairwise (fun a b => a < b) := by
    unfold detect_changes poll_buttons
    by_cases h : c = p
    · simp [h]
    · rw [if_pos h]
      show ((log_changes c _).map ChangeEvent.bit).Pairwise _
      rw [log_changes_bits]
      exact List.Pairwise.sublist (List.filter_sublist _) (List.pairwise_lt_range 12)
  refine ⟨hpw, hpw.imp (fun h => Nat.ne_of_lt h), ?_⟩
  intro e he
  unfold detect_changes poll_buttons at he
  by_cases h : c = p
  · simp [h] at he
  · rw [if_pos h] at he
    exact ((mem_log_changes _ _ _).1 he).1

/-! ## The button table -/

/-- C5: `input_button_name` is a total lookup: bits 0..11 give the twelve
names UP, DOWN, LEFT, RIGHT, A, B, X, Y, START, SELECT, L, R in this order, the
names are pairwise distinct, and every other `int` (negative or at least 12)
gives the sentinel `?`, which is none of the names. -/
theorem C5_input_button_name_total (bit : Int) (h : bit < 0 ∨ 12 ≤ bit) :
    input_button_name bit = "?" ∧
      (List.range 12).map (fun i : Nat => input_button_name (i : Int))
        = ["UP", "DOWN", "LEFT", "RIGHT", "A", "B", "X", "Y", "START", "SELECT", "L", "R"] ∧
      ((List.range 12).map (fun i : Nat => input_button_name (i : Int))).Nodup ∧
      "?" ∉ (List.range 12).map (fun i : Nat => input_button_name (i : Int)) := by
  refine ⟨?_, by decide, by decide, by decide⟩
  unfold input_button_name
  have h12 : (NUM_BUTTONS : Int) = 12 := rfl
  rw [dif_neg]
  rw [h12]
  omega

theorem C5_input_button_name_total_witness :
    input_button_name (-1) = "?" ∧ input_button_name 12 = "?" ∧
      input_button_name 0 = "UP" ∧ input_button_name 11 = "R" :=
  ⟨(C5_input_button_name_total (-1) (by decide)).1,
    (C5_input_button_name_total 12 (by decide)).1, by decide, by decide⟩

theorem input_read_fold_testBit (lvl : Nat → Int) (i : Nat) (hi : i < 16) :
    ∀ (l : List ButtonEntry) (st : Nat),
      (l.foldl (input_read_step lvl) st).testBit i
        = (st.testBit i || l.any (fun b => decide (lvl b.gpio = 0) && b.mask.testBit i)) := by
  intro l
  induction l with
  | nil => intro st; simp
  | cons b l ih =>
    intro st
    rw [List.foldl_cons, ih, List.any_cons]
    unfold input_read_step
    by_cases hb : lvl b.gpio = 0
    · rw [if_pos hb, to_uint16_testBit _ _ hi, Nat.testBit_or]
      simp [hb, Bool.or_assoc]
    · rw [if_neg hb]
      simp [hb]

theorem input_read_fold_lt (lvl : Nat → Int) :
    ∀ (l : List ButtonEntry) (st : Nat), st < 2 ^ 12 → (∀ b ∈ l, b.mask < 2 ^ 12) →
      l.foldl (input_read_step lvl) st < 2 ^ 12 := by
  intro l
  induction l with
  | nil => intro st hst _; simpa using hst
  | cons b l ih =>
    intro st hst hl
    rw [List.foldl_cons]
    apply ih
    · unfold input_read_step
      split
      · have hor : st ||| b.mask < 2 ^ 12 :=
          Nat.or_lt_two_pow hst (hl b (List.mem_cons_self _ _))
        exact lt_of_le_of_lt (Nat.mod_le _ _) hor
      · exact hst
    · intro b2 hb2
      exact hl b2 (List.mem_cons_of_mem _ hb2)

theorem s_buttons_mask_testBit :
    ∀ k : Fin s_buttons.length, ∀ j : Fin 12,
      (s_buttons.get k).mask.testBit j.val = decide (k.val = j.val) := by
  decide

theorem s_buttons_row :
    ∀ k : Fin s_buttons.length,
      (s_buttons.get k).mask = 1 <<< k.val ∧
        (s_buttons.get k).name = input_button_name (k.val : Int) := by
  decide

/-- C6: `input_read` is active-low and position-faithful: bit `i` (below 12)
of the result is set if and only if the pin of table row `i` reads level 0,
row `i` being the one of mask `1 << i` and of name `input_button_name(i)`;
the result is below 4096 (bits 12..15 clear); the twelve pins and the twelve
masks of the table are pairwise distinct. -/
theorem C6_input_read_active_low (gpio_get_level : Nat → Int) (i : Nat)
    (hi : i < s_buttons.length) :
    ((input_read gpio_get_level).testBit i = true
        ↔ gpio_get_level (s_buttons.get ⟨i, hi⟩).gpio = 0) ∧
      (input_read gpio_get_level &&& (1 <<< i) ≠ 0
        ↔ gpio_get_level (s_buttons.get ⟨i, hi⟩).gpio = 0) ∧
      (s_buttons.get ⟨i, hi⟩).mask = 1 <<< i ∧
      (s_buttons.get ⟨i, hi⟩).name = input_button_name i ∧
      input_read gpio_get_level < 4096 ∧
      (s_buttons.map ButtonEntry.gpio).Nodup ∧
      (s_buttons.map ButtonEntry.mask).Nodup := by
  have hlen : s_buttons.length = 12 := rfl
  have hi12 : i < 12 := by omega
  have hbit : ((input_read gpio_get_level).testBit i = true
      ↔ gpio_get_level (s_buttons.get ⟨i, hi⟩).gpio = 0) := by
    unfold input_read
    rw [input_read_fold_testBit gpio_get_level i (by omega), Nat.zero_testBit, Bool.false_or,
      List.any_eq_true]
    constructor
    · rintro ⟨b, hb, hcond⟩
      obtain ⟨k, rfl⟩ := List.mem_iff_get.1 hb
      simp only [Bool.and_eq_true, decide_eq_true_eq] at hcond
      have hk := s_buttons_mask_testBit k ⟨i, hi12⟩
      rw [hcond.2] at hk
      have hki : k.val = i := by simpa using hk.symm
      have hk2 : k = ⟨i, hi⟩ := Fin.ext hki
      rw [← hk2]
      exact hcond.1
    · intro h0
      refine ⟨s_buttons.get ⟨i, hi⟩, List.get_mem _ _ _, ?_⟩
      have hk := s_buttons_mask_testBit ⟨i, hi⟩ ⟨i, hi12⟩
      simp only [Bool.and_eq_true, decide_eq_true_eq]
      exact ⟨h0, by simpa using hk⟩
  refine ⟨hbit, ?_, (s_buttons_row ⟨i, hi⟩).1, (s_buttons_row ⟨i, hi⟩).2, ?_,
    by decide, by decide⟩
  · rw [and_one_shiftLeft_ne_zero]; exact hbit
  · unfold input_read
    have := input_read_fold_lt gpio_get_level s_buttons 0 (by norm_num) (by decide)
    simpa using this

theorem C6_input_read_active_low_witness :
    (4 : Nat) < s_buttons.length ∧
      ((input_read (fun g => if g = 2 then 0 else 1)).testBit 4 = true
        ↔ (fun g : Nat => if g = 2 then (0 : Int) else 1)
            (s_buttons.get ⟨4, by decide⟩).gpio = 0) ∧
      input_read (fun g => if g = 2 then 0 else 1) = 16 :=
  ⟨by decide,
    (C6_input_read_active_low (fun g => if g = 2 then 0 else 1) 4 (by decide)).1,
    by decide⟩

/-! ## binary32 rounding -/

theorem round_half_even_intCast (n : Int) : round_half_even (n : ℚ) = n := by
  unfold round_half_even
  simp

theorem abs_round_half_even_sub (q : ℚ) : |(round_half_even q : ℚ) - q| ≤ 1 / 2 := by
  unfold round_half_even
  have h1 : (⌊q⌋ : ℚ) ≤ q := Int.floor_le q
  have h2 : q < (⌊q⌋ : ℚ) + 1 := Int.lt_floor_add_one q
  simp only
  split_ifs with ha hb hc
  · rw [abs_le]; constructor <;> linarith
  · rw [abs_le]; push_cast; constructor <;> linarith
  · have : q - ⌊q⌋ = 1 / 2 := le_antisymm (not_lt.1 hb) (not_lt.1 ha)
    rw [abs_le]; constructor <;> linarith
  · have : q - ⌊q⌋ = 1 / 2 := le_antisymm (not_lt.1 hb) (not_lt.1 ha)
    rw [abs_le]; push_cast; constructor <;> linarith

/-- The error of one rounding is at most `2^-24` of the rounded value. -/
theorem abs_f32_round_sub (q : ℚ) : |f32_round q - q| ≤ |q| / 2 ^ 24 := by
  unfold f32_round
  by_cases hq : q = 0
  · simp [hq]
  · rw [if_neg hq]
    simp only
    have hpos : 0 < |q| := abs_pos.2 hq
    set e : Int := Int.log 2 |q| - 23 with he
    have hp : (0 : ℚ) < 2 ^ e := zpow_pos (by norm_num) e
    have hlog : ((2 : ℕ) : ℚ) ^ Int.log 2 |q| ≤ |q| := Int.zpow_log_le_self (by norm_num) hpos
    have hsplit : ((2 : ℕ) : ℚ) ^ Int.log 2 |q| = 2 ^ e * 2 ^ (23 : ℤ) := by
      rw [← zpow_add₀ (by norm_num : (2 : ℚ) ≠ 0)]
      congr 1
      omega
    have herr := abs_round_half_even_sub (q / 2 ^ e)
    have hq2 : q = q / 2 ^ e * 2 ^ e := by field_simp
    have : (round_half_even (q / 2 ^ e) : ℚ) * 2 ^ e - q
        = ((round_half_even (q / 2 ^ e) : ℚ) - q / 2 ^ e) * 2 ^ e := by
      rw [sub_mul, ← hq2]
    rw [this, abs_mul, abs_of_pos hp]
    have h23 : (2 : ℚ) ^ (23 : ℤ) = 8388608 := by norm_num
    rw [hsplit, h23] at hlog
    have : |(round_half_even (q / 2 ^ e) : ℚ) - q / 2 ^ e| * 2 ^ e ≤ 1 / 2 * 2 ^ e :=
      mul_le_mul_of_nonneg_right herr hp.le
    rw [le_div_iff₀ (by norm_num)]
    norm_num at this ⊢
    nlinarith

/-- A value with a 24-bit significand is left unchanged by the rounding. -/
theorem f32_round_of_significand (m k : Int) (hm : |m| < 2 ^ 24) :
    f32_round ((m : ℚ) * 2 ^ k) = (m : ℚ) * 2 ^ k := by
  unfold f32_round
  have hp : (0 : ℚ) < 2 ^ k := zpow_pos (by norm_num) k
  by_cases hm0 : m = 0
  · simp [hm0]
  · have hq : (m : ℚ) * 2 ^ k ≠ 0 := mul_ne_zero (by exact_mod_cast hm0) hp.ne'
    rw [if_neg hq]
    simp only
    set e : Int := Int.log 2 |(m : ℚ) * 2 ^ k| - 23 with he
    have hpos : 0 < |(m : ℚ) * 2 ^ k| := abs_pos.2 hq
    have hlt : |(m : ℚ) * 2 ^ k| < ((2 : ℕ) : ℚ) ^ (k + 24) := by
      rw [abs_mul, abs_of_pos hp, zpow_add₀ (by norm_num), mul_comm]
      have : |(m : ℚ)| < 2 ^ (24 : ℤ) := by
        have h1 : ((|m| : Int) : ℚ) < 16777216 := by
          have h0 : |m| < 16777216 := by simpa using hm
          exact_mod_cast h0
        have h2 : (2 : ℚ) ^ (24 : ℤ) = 16777216 := by norm_num
        rw [h2, ← Int.cast_abs]
        exact h1
      push_cast
      exact mul_lt_mul_of_pos_left this hp
    have hlog : Int.log 2 |(m : ℚ) * 2 ^ k| < k + 24 :=
      (Int.lt_zpow_iff_log_lt (by norm_num) hpos).1 hlt
    have hke : 0 ≤ k - e := by omega
    obtain ⟨d, hd⟩ := Int.eq_ofNat_of_zero_le hke
    have hk : k = e + d := by omega
    have hy : (m : ℚ) * 2 ^ k / 2 ^ e = ((m * 2 ^ d : Int) : ℚ) := by
      rw [hk, zpow_add₀ (by norm_num)]
      have hpe : (0 : ℚ) < 2 ^ e := zpow_pos (by norm_num) e
      field_simp
      ring
    rw [hy, round_half_even_intCast, hk, zpow_add₀ (by norm_num)]
    push_cast
    rw [zpow_natCast]
    ring

theorem f32_round_bounds (x : ℚ) (hx : 0 ≤ x) :
    x * (1 - 1 / 2 ^ 24) ≤ f32_round x ∧ f32_round x ≤ x * (1 + 1 / 2 ^ 24) := by
  have h := abs_f32_round_sub x
  rw [abs_of_nonneg hx, abs_le] at h
  constructor <;> linarith [h.1, h.2]

theorem f32_round_nonneg (x : ℚ) (hx : 0 ≤ x) : 0 ≤ f32_round x := by
  have h := (f32_round_bounds x hx).1
  have : 0 ≤ x * (1 - 1 / 2 ^ 24) := mul_nonneg hx (by norm_num)
  linarith

theorem f32_round_pos (x : ℚ) (hx : 0 < x) : 0 < f32_round x := by
  have h := (f32_round_bounds x hx.le).1
  have : 0 < x * (1 - 1 / 2 ^ 24) := mul_pos hx (by norm_num)
  linarith

/-- The computed rate is within `2^-21` (relative) of the exact quotient. -/
theorem poll_rate_error (a b : Int) (ha : 0 ≤ a) (hb : 0 < b) :
    |poll_rate a b - (a : ℚ) * 1000000 / b| ≤ ((a : ℚ) * 1000000 / b) / 2 ^ 21 := by
  have haq : (0 : ℚ) ≤ a := by exact_mod_cast ha
  have hbq : (0 : ℚ) < b := by exact_mod_cast hb
  unfold poll_rate f32_div f32_mul f32_of_int
  set A := f32_round (a : ℚ) with hA
  set P := f32_round (A * 1000000) with hP
  set B := f32_round (b : ℚ) with hB
  set r := f32_round (P / B) with hr
  have hA0 : 0 ≤ A := f32_round_nonneg _ haq
  have hAb := f32_round_bounds _ haq
  have hAM0 : 0 ≤ A * 1000000 := by positivity
  have hP0 : 0 ≤ P := f32_round_nonneg _ hAM0
  have hPb := f32_round_bounds _ hAM0
  have hB0 : 0 < B := f32_round_pos _ hbq
  have hBb := f32_round_bounds _ hbq.le
  have hQ0 : 0 ≤ P / B := div_nonneg hP0 hB0.le
  have hrb := f32_round_bounds _ hQ0
  have hr0 : 0 ≤ r := f32_round_nonneg _ hQ0
  have hQB : P / B * B = P := div_mul_cancel₀ P hB0.ne'
  rw [← hA] at hAb
  rw [← hP] at hPb
  rw [← hB] at hBb
  rw [← hr] at hrb
  set Q := P / B with hQ
  set u : ℚ := 1 / 2 ^ 24 with hu
  have hu1 : (0 : ℚ) < 1 - u := by norm_num [hu]
  have hu2 : (0 : ℚ) < 1 + u := by norm_num [hu]
  -- bounds on the product
  have hP_hi : P ≤ a * 1000000 * ((1 + u) * (1 + u)) := by
    have : A * 1000000 * (1 + u) ≤ a * (1 + u) * 1000000 * (1 + u) := by
      have := hAb.2
      gcongr
    linarith [hPb.2]
  have hP_lo : a * 1000000 * ((1 - u) * (1 - u)) ≤ P := by
    have : a * (1 - u) * 1000000 * (1 - u) ≤ A * 1000000 * (1 - u) := by
      have := hAb.1
      gcongr
    linarith [hPb.1]
  -- bounds on the quotient, cleared of the division
  have hQ_hi : Q * (b * (1 - u)) ≤ a * 1000000 * ((1 + u) * (1 + u)) := by
    have : Q * (b * (1 - u)) ≤ Q * B := mul_le_mul_of_nonneg_left hBb.1 hQ0
    linarith
  have hQ_lo : a * 1000000 * ((1 - u) * (1 - u)) ≤ Q * (b * (1 + u)) := by
    have : Q * B ≤ Q * (b * (1 + u)) := mul_le_mul_of_nonneg_left hBb.2 hQ0
    linarith
  have hbu1 : 0 < b * (1 - u) := mul_pos hbq hu1
  have hbu2 : 0 < b * (1 + u) := mul_pos hbq hu2
  have hr_hi : r * (b * (1 - u)) ≤ a * 1000000 * ((1 + u) * (1 + u) * (1 + u)) := by
    have h1 : r * (b * (1 - u)) ≤ Q * (1 + u) * (b * (1 - u)) :=
      mul_le_mul_of_nonneg_right hrb.2 hbu1.le
    have h2 : Q * (b * (1 - u)) * (1 + u) ≤ a * 1000000 * ((1 + u) * (1 + u)) * (1 + u) :=
      mul_le_mul_of_nonneg_right hQ_hi hu2.le
    linarith
  have hr_lo : a * 1000000 * ((1 - u) * (1 - u) * (1 - u)) ≤ r * (b * (1 + u)) := by
    have h1 : Q * (1 - u) * (b * (1 + u)) ≤ r * (b * (1 + u)) :=
      mul_le_mul_of_nonneg_right hrb.1 hbu2.le
    have h2 : a * 1000000 * ((1 - u) * (1 - u)) * (1 - u) ≤ Q * (b * (1 + u)) * (1 - u) :=
      mul_le_mul_of_nonneg_right hQ_lo hu1.le
    linarith
  have hE0 : (0 : ℚ) ≤ a * 1000000 := by positivity
  have hn1 : (1 + u) * (1 + u) * (1 + u) ≤ (1 + 1 / 2 ^ 21) * (1 - u) := by norm_num [hu]
  have hn2 : (1 - 1 / 2 ^ 21) * (1 + u) ≤ (1 - u) * (1 - u) * (1 - u) := by norm_num [hu]
  have hfin_hi : r * b ≤ a * 1000000 * (1 + 1 / 2 ^ 21) := by
    have h3 : a * 1000000 * ((1 + u) * (1 + u) * (1 + u))
        ≤ a * 1000000 * ((1 + 1 / 2 ^ 21) * (1 - u)) := mul_le_mul_of_nonneg_left hn1 hE0
    have h4 : r * b * (1 - u) ≤ a * 1000000 * (1 + 1 / 2 ^ 21) * (1 - u) := by
      calc r * b * (1 - u) = r * (b * (1 - u)) := by ring
        _ ≤ a * 1000000 * ((1 + u) * (1 + u) * (1 + u)) := hr_hi
        _ ≤ a * 1000000 * ((1 + 1 / 2 ^ 21) * (1 - u)) := h3
        _ = a * 1000000 * (1 + 1 / 2 ^ 21) * (1 - u) := by ring
    exact le_of_mul_le_mul_right h4 hu1
  have hfin_lo : a * 1000000 * (1 - 1 / 2 ^ 21) ≤ r * b := by
    have h3 : a * 1000000 * ((1 - 1 / 2 ^ 21) * (1 + u))
        ≤ a * 1000000 * ((1 - u) * (1 - u) * (1 - u)) := mul_le_mul_of_nonneg_left hn2 hE0
    have h4 : a * 1000000 * (1 - 1 / 2 ^ 21) * (1 + u) ≤ r * b * (1 + u) := by
      calc a * 1000000 * (1 - 1 / 2 ^ 21) * (1 + u)
          = a * 1000000 * ((1 - 1 / 2 ^ 21) * (1 + u)) := by ring
        _ ≤ a * 1000000 * ((1 - u) * (1 - u) * (1 - u)) := h3
        _ ≤ r * (b * (1 + u)) := hr_lo
        _ = r * b * (1 + u) := by ring
    exact le_of_mul_le_mul_right h4 hu2
  have hlo : (a : ℚ) * 1000000 * (1 - 1 / 2 ^ 21) / b ≤ r := (div_le_iff₀ hbq).2 hfin_lo
  have hhi : r ≤ (a : ℚ) * 1000000 * (1 + 1 / 2 ^ 21) / b := (le_div_iff₀ hbq).2 hfin_hi
  have e1 : (a : ℚ) * 1000000 * (1 - 1 / 2 ^ 21) / b
      = (a : ℚ) * 1000000 / b - (a : ℚ) * 1000000 / b / 2 ^ 21 := by ring
  have e2 : (a : ℚ) * 1000000 * (1 + 1 / 2 ^ 21) / b
      = (a : ℚ) * 1000000 / b + (a : ℚ) * 1000000 / b / 2 ^ 21 := by ring
  rw [e1] at hlo
  rw [e2] at hhi
  rw [abs_le]
  constructor <;> linarith

theorem f32_round_intCast (m : Int) (hm : |m| < 2 ^ 24) : f32_round (m : ℚ) = m := by
  simpa using f32_round_of_significand m 0 hm

theorem poll_rate_5000 : poll_rate 5000 5000000 = 1000 := by
  unfold poll_rate f32_div f32_mul f32_of_int
  have h1 : f32_round ((5000 : Int) : ℚ) = 5000 := by
    simpa using f32_round_intCast 5000 (by norm_num)
  have h2 : f32_round ((5000 : ℚ) * 1000000) = 5000000000 := by
    have := f32_round_of_significand 9765625 9 (by norm_num)
    norm_num at this ⊢
    exact this
  have h3 : f32_round ((5000000 : Int) : ℚ) = 5000000 := by
    simpa using f32_round_intCast 5000000 (by norm_num)
  have h4 : f32_round ((5000000000 : ℚ) / 5000000) = 1000 := by
    have := f32_round_intCast 1000 (by norm_num)
    norm_num at this ⊢
    exact this
  rw [h1, h2, h3, h4]

theorem poll_rate_5 : poll_rate 5 5000000 = 1 := by
  unfold poll_rate f32_div f32_mul f32_of_int
  have h1 : f32_round ((5 : Int) : ℚ) = 5 := by
    simpa using f32_round_intCast 5 (by norm_num)
  have h2 : f32_round ((5 : ℚ) * 1000000) = 5000000 := by
    have := f32_round_intCast 5000000 (by norm_num)
    norm_num at this ⊢
    exact this
  have h3 : f32_round ((5000000 : Int) : ℚ) = 5000000 := by
    simpa using f32_round_intCast 5000000 (by norm_num)
  have h4 : f32_round ((5000000 : ℚ) / 5000000) = 1 := by
    have := f32_round_intCast 1 (by norm_num)
    norm_num at this ⊢
    exact this
  rw [h1, h2, h3, h4]

theorem wrap_int32_of_range (z : Int) (h1 : -2147483648 ≤ z) (h2 : z ≤ 2147483647) :
    wrap_int32 z = z := by
  unfold wrap_int32; omega

theorem wrap_int64_of_range (z : Int) (h1 : -9223372036854775808 ≤ z)
    (h2 : z ≤ 9223372036854775807) : wrap_int64 z = z := by
  unfold wrap_int64; omega

/-- One iteration of the FPS counter when neither the increment of
`frame_count` nor the subtraction of the timestamps overflows. -/
theorem fps_counter_eq (frame_count fps_start now : Int)
    (hfc : -2147483648 ≤ frame_count ∧ frame_count < 2147483647)
    (hs : 0 ≤ fps_start ∧ fps_start ≤ 9223372036854775807)
    (hn : 0 ≤ now ∧ now ≤ 9223372036854775807) :
    fps_counter ⟨frame_count, fps_start⟩ now =
      if 5000000 ≤ now - fps_start then
        (some (poll_rate (frame_count + 1) (now - fps_start)), ⟨0, now⟩)
      else (none, ⟨frame_count + 1, fps_start⟩) := by
  unfold fps_counter
  simp only
  rw [wrap_int32_of_range _ (by omega) (by omega), wrap_int64_of_range _ (by omega) (by omega)]

theorem fps_counter_run_append (ts : List Int) (now : Int) :
    ∀ s : RateWindow, fps_counter_run s (ts ++ [now]) =
      ((fps_counter_run s ts).1 ++ [(fps_counter (fps_counter_run s ts).2 now).1],
        (fps_counter (fps_counter_run s ts).2 now).2) := by
  induction ts with
  | nil => intro s; simp [fps_counter_run]
  | cons t ts ih => intro s; simp [fps_counter_run, ih]

/-- Iterations whose timestamps stay less than 5 s after the window start log
nothing and count the frames. -/
theorem fps_counter_run_quiet (fps_start : Int)
    (hs : 0 ≤ fps_start ∧ fps_start ≤ 9223372036854775807) :
    ∀ (ts : List Int) (frame_count : Int),
      0 ≤ frame_count → frame_count + ts.length ≤ 2147483647 →
      (∀ t ∈ ts, 0 ≤ t ∧ t ≤ 9223372036854775807 ∧ t - fps_start < 5000000) →
      fps_counter_run ⟨frame_count, fps_start⟩ ts
        = (ts.map (fun _ => none), ⟨frame_count + ts.length, fps_start⟩) := by
  intro ts
  induction ts with
  | nil => intro fc _ _ _; simp [fps_counter_run]
  | cons t ts ih =>
    intro fc h0 hlen hts
    have ht := hts t (List.mem_cons_self _ _)
    have hlen2 : fc + 1 + (ts.length : Int) ≤ 2147483647 := by
      simp only [List.length_cons, Nat.cast_add, Nat.cast_one] at hlen
      omega
    have hstep := fps_counter_eq fc fps_start t ⟨by omega, by omega⟩ hs ⟨ht.1, ht.2.1⟩
    rw [if_neg (by omega)] at hstep
    unfold fps_counter_run
    rw [hstep]
    simp only
    rw [ih (fc + 1) (by omega) hlen2 (fun t2 h2 => hts t2 (List.mem_cons_of_mem _ h2))]
    simp only [List.map_cons, List.length_cons, Nat.cast_add, Nat.cast_one]
    congr 2
    ring

/-- C7: one step of the rate monitor on the state `(frame_count, fps_start)`
at the timestamp `now`: `frame_count` is incremented first; with
`elapsed = now - fps_start`, if `elapsed >= 5000000` the rate
`(float)frame_count * 1000000.0f / (float)elapsed` of the incremented count is
logged and the state becomes `(0, now)`, otherwise nothing is logged, the
count keeps its incremented value and `fps_start` is unchanged. The logged
rate is within `2^-21` (relative) of the exact quotient
`frame_count * 1000000 / elapsed`. 5000 samples, one per millisecond, the
5000th at exactly 5000000 us, log the rate 1000 exactly once, at the last
sample, and leave `frame_count = 0`. -/
theorem C7_fps_counter_step (frame_count fps_start now : Int)
    (hfc : -2147483648 ≤ frame_count ∧ frame_count < 2147483647)
    (hs : 0 ≤ fps_start ∧ fps_start ≤ 9223372036854775807)
    (hn : 0 ≤ now ∧ now ≤ 9223372036854775807) :
    fps_counter ⟨frame_count, fps_start⟩ now =
        (if 5000000 ≤ now - fps_start then
          (some (poll_rate (frame_count + 1) (now - fps_start)), ⟨0, now⟩)
        else (none, ⟨frame_count + 1, fps_start⟩)) ∧
      (0 ≤ frame_count + 1 → 5000000 ≤ now - fps_start →
        |poll_rate (frame_count + 1) (now - fps_start)
            - ((frame_count + 1 : Int) : ℚ) * 1000000 / ((now - fps_start : Int) : ℚ)|
          ≤ ((frame_count + 1 : Int) : ℚ) * 1000000 / ((now - fps_start : Int) : ℚ) / 2 ^ 21) ∧
      fps_counter_run ⟨0, 0⟩ ((List.range 5000).map (fun k : Nat => 1000 * ((k : Int) + 1)))
        = (List.replicate 4999 none ++ [some 1000], ⟨0, 5000000⟩) := by
  refine ⟨fps_counter_eq frame_count fps_start now hfc hs hn, ?_, ?_⟩
  · intro h0 h5
    exact poll_rate_error (frame_count + 1) (now - fps_start) h0 (by omega)
  · rw [List.range_succ, List.map_append, List.map_singleton, fps_counter_run_append,
      fps_counter_run_quiet 0 (by decide) _ 0 (by decide)
        (by simp only [List.length_map, List.length_range]; norm_num)
        (by
          intro t ht
          simp only [List.mem_map, List.mem_range] at ht
          obtain ⟨k, hk, rfl⟩ := ht
          omega)]
    simp only [List.length_map, List.length_range]
    have hstep := fps_counter_eq 4999 0 5000000 (by decide) (by decide) (by decide)
    rw [if_pos (by decide)] at hstep
    have hnum : (1000 : Int) * (((4999 : Nat) : Int) + 1) = 5000000 := by norm_num
    have hfc0 : (0 : Int) + ((4999 : Nat) : Int) = 4999 := by norm_num
    rw [hnum, hfc0, hstep]
    have hp : poll_rate (4999 + 1) (5000000 - 0) = 1000 := by
      have := poll_rate_5000
      norm_num at this ⊢
      exact this
    rw [hp, List.map_const', List.length_map, List.length_range]

theorem C7_fps_counter_step_witness :
    (-2147483648 ≤ (4999 : Int) ∧ (4999 : Int) < 2147483647) ∧
      (0 ≤ (0 : Int) ∧ (0 : Int) ≤ 9223372036854775807) ∧
      (0 ≤ (5000000 : Int) ∧ (5000000 : Int) ≤ 9223372036854775807) ∧
      fps_counter ⟨4999, 0⟩ 5000000
        = (if (5000000 : Int) ≤ 5000000 - 0 then
            (some (poll_rate (4999 + 1) (5000000 - 0)), ⟨0, 5000000⟩)
          else (none, ⟨4999 + 1, 0⟩)) :=
  ⟨by decide, by decide, by decide,
    (C7_fps_counter_step 4999 0 5000000 (by decide) (by decide) (by decide)).1⟩

/-- C8, as stated, fails: from a fresh window, four quiet samples followed by
a fifth sample arriving exactly 5 s after the window start log the rate 1
(five samples in five seconds), which is not the rate `4 / 5` of the four
samples that came before the crossing one, nor within rounding of it. -/
theorem C8_rate_counts_crossing_sample_counterexample :
    fps_counter_run ⟨0, 0⟩ [1000000, 2000000, 3000000, 4000000, 5000000]
        = ([none, none, none, none, some 1], ⟨0, 5000000⟩) ∧
      ¬ (|(1 : ℚ) - 4 * 1000000 / 5000000| ≤ 4 * 1000000 / 5000000 / 2 ^ 21) := by
  constructor
  · have hl : ([1000000, 2000000, 3000000, 4000000, 5000000] : List Int)
        = [1000000, 2000000, 3000000, 4000000] ++ [5000000] := rfl
    rw [hl, fps_counter_run_append,
      fps_counter_run_quiet 0 (by decide) _ 0 (by decide) (by decide) (by decide)]
    have hstep := fps_counter_eq 4 0 5000000 (by decide) (by decide) (by decide)
    rw [if_pos (by decide)] at hstep
    have hp : poll_rate (4 + 1) (5000000 - 0) = 1 := by
      have := poll_rate_5
      norm_num at this ⊢
      exact this
    rw [hp] at hstep
    simp only [List.length_cons, List.length_nil, List.map_cons, List.map_nil]
    have hfc0 : (0 : Int) + ((0 + 1 + 1 + 1 + 1 : Nat) : Int) = 4 := by norm_num
    rw [hfc0, hstep]
    rfl
  · rw [abs_le]
    norm_num

/-- C8, amended: from a fresh window (`frame_count = 0`), `N` steps whose
timestamps are all less than 5 s after the window start log no rate, and the
next step, at least 5 s after the window start, logs the rate of `N + 1`
samples (the crossing sample is counted): the binary32 value of
`(N + 1) * 1000000 / elapsed`, within `2^-21` (relative) of the exact
quotient, and the window is reset to `(0, now)`. -/
theorem C8_rate_counts_crossing_sample (N : Nat) (fps_start now : Int) (ts : List Int)
    (hlen : ts.length = N) (hN : N < 2147483647)
    (hs : 0 ≤ fps_start ∧ fps_start ≤ 9223372036854775807)
    (hts : ∀ t ∈ ts, 0 ≤ t ∧ t ≤ 9223372036854775807 ∧ t - fps_start < 5000000)
    (hn : 0 ≤ now ∧ now ≤ 9223372036854775807) (hcross : 5000000 ≤ now - fps_start) :
    fps_counter_run ⟨0, fps_start⟩ (ts ++ [now])
        = (List.replicate N none ++ [some (poll_rate ((N : Int) + 1) (now - fps_start))],
            ⟨0, now⟩) ∧
      |poll_rate ((N : Int) + 1) (now - fps_start)
          - (((N : Int) + 1 : Int) : ℚ) * 1000000 / ((now - fps_start : Int) : ℚ)|
        ≤ (((N : Int) + 1 : Int) : ℚ) * 1000000 / ((now - fps_start : Int) : ℚ) / 2 ^ 21 := by
  refine ⟨?_, poll_rate_error ((N : Int) + 1) (now - fps_start) (by omega) (by omega)⟩
  rw [fps_counter_run_append,
    fps_counter_run_quiet fps_start hs ts 0 (le_refl 0) (by rw [hlen]; omega) hts]
  have hstep := fps_counter_eq (0 + (ts.length : Int)) fps_start now
    ⟨by omega, by rw [hlen]; omega⟩ hs hn
  rw [if_pos hcross] at hstep
  simp only
  rw [hstep, List.map_const', hlen]
  simp

theorem C8_rate_counts_crossing_sample_witness :
    ([1000, 2000] : List Int).length = 2 ∧ (2 : Nat) < 2147483647 ∧
      fps_counter_run ⟨0, 0⟩ ([1000, 2000] ++ [6000000])
        = (List.replicate 2 none ++ [some (poll_rate (((2 : Nat) : Int) + 1) (6000000 - 0))],
            ⟨0, 6000000⟩) :=
  ⟨rfl, by decide,
    (C8_rate_counts_crossing_sample 2 0 6000000 [1000, 2000] rfl (by decide) (by decide)
      (by decide) (by decide) (by decide)).1⟩

/-- C9: when `now - fps_start <= 0` (clock rollback or no progress) the step
logs no rate, increments `frame_count` by exactly 1 and leaves `fps_start`
unchanged; and whenever a step logs a rate, `elapsed` is at least 5000000 and
the divisor `(float)elapsed` of the rate is positive. -/
theorem C9_degenerate_timing (frame_count fps_start now : Int)
    (hfc : -2147483648 ≤ frame_count ∧ frame_count < 2147483647)
    (hs : 0 ≤ fps_start ∧ fps_start ≤ 9223372036854775807)
    (hn : 0 ≤ now ∧ now ≤ 9223372036854775807)
    (hdeg : now - fps_start ≤ 0) :
    fps_counter ⟨frame_count, fps_start⟩ now = (none, ⟨frame_count + 1, fps_start⟩) ∧
      (∀ (fc fs t : Int) (r : ℚ),
        (-2147483648 ≤ fc ∧ fc < 2147483647) →
        (0 ≤ fs ∧ fs ≤ 9223372036854775807) →
        (0 ≤ t ∧ t ≤ 9223372036854775807) →
        (fps_counter ⟨fc, fs⟩ t).1 = some r →
          5000000 ≤ t - fs ∧ 0 < f32_of_int (t - fs) ∧
            r = f32_div (f32_mul (f32_of_int (fc + 1)) 1000000) (f32_of_int (t - fs))) := by
  constructor
  · rw [fps_counter_eq frame_count fps_start now hfc hs hn, if_neg (by omega)]
  · intro fc fs t r h1 h2 h3 hr
    rw [fps_counter_eq fc fs t h1 h2 h3] at hr
    by_cases h5 : 5000000 ≤ t - fs
    · rw [if_pos h5] at hr
      simp only [Option.some.injEq] at hr
      refine ⟨h5, ?_, ?_⟩
      · unfold f32_of_int
        apply f32_round_pos
        have : (0 : Int) < t - fs := by omega
        exact_mod_cast this
      · rw [← hr]; rfl
    · rw [if_neg h5] at hr
      simp at hr

theorem C9_degenerate_timing_witness :
    (-2147483648 ≤ (7 : Int) ∧ (7 : Int) < 2147483647) ∧
      (0 ≤ (1000 : Int) ∧ (1000 : Int) ≤ 9223372036854775807) ∧
      (0 ≤ (400 : Int) ∧ (400 : Int) ≤ 9223372036854775807) ∧
      (400 : Int) - 1000 ≤ 0 ∧
      fps_counter ⟨7, 1000⟩ 400 = (none, ⟨7 + 1, 1000⟩) :=
  ⟨by decide, by decide, by decide, by decide,
    (C9_degenerate_timing 7 1000 400 (by decide) (by decide) (by decide) (by decide)).1⟩

/-! ## The battery gauge -/

theorem and_15_eq_mod (x : Nat) : x &&& 0x0F = x % 16 :=
  Nat.and_pow_two_sub_one_eq_mod x 4

/-- C10: `power_get_battery_percent` is an exact step function of the low
nibble of the register byte: -1 when the IP5306 is not available or the read
fails; otherwise 100, 75, 50, 25 for the low nibbles 0x0F, 0x07, 0x03, 0x01
and 0 for every other one. The result is always one of -1, 0, 25, 50, 75, 100
and does not depend on the upper four bits of the byte. -/
theorem C10_battery_percent_step_function (i2c : Nat → Option Nat) (val : Nat)
    (hread : i2c IP5306_REG_READ2 = some val) :
    (val &&& 0x0F = 0x0F → power_get_battery_percent true i2c = 100) ∧
      (val &&& 0x0F = 0x07 → power_get_battery_percent true i2c = 75) ∧
      (val &&& 0x0F = 0x03 → power_get_battery_percent true i2c = 50) ∧
      (val &&& 0x0F = 0x01 → power_get_battery_percent true i2c = 25) ∧
      (val &&& 0x0F ≠ 0x0F → val &&& 0x0F ≠ 0x07 → val &&& 0x0F ≠ 0x03 →
        val &&& 0x0F ≠ 0x01 → power_get_battery_percent true i2c = 0) ∧
      power_get_battery_percent false i2c = -1 ∧
      (∀ dev : Nat → Option Nat, dev IP5306_REG_READ2 = none →
        power_get_battery_percent true dev = -1) ∧
      (∀ (avail : Bool) (dev : Nat → Option Nat),
        power_get_battery_percent avail dev ∈ ([-1, 0, 25, 50, 75, 100] : List Int)) ∧
      (∀ (dev : Nat → Option Nat) (val2 : Nat), dev IP5306_REG_READ2 = some val2 →
        val2 % 16 = val % 16 →
        power_get_battery_percent true dev = power_get_battery_percent true i2c) := by
  have hval : power_get_battery_percent true i2c =
      (if val &&& 0x0F = 0x0F then 100
        else if val &&& 0x0F = 0x07 then 75
        else if val &&& 0x0F = 0x03 then 50
        else if val &&& 0x0F = 0x01 then 25
        else 0) := by
    simp [power_get_battery_percent, ip5306_read_reg, hread]
  refine ⟨?_, ?_, ?_, ?_, ?_, ?_, ?_, ?_, ?_⟩
  · intro h; rw [hval, if_pos h]
  · intro h; rw [hval]; simp [h]
  · intro h; rw [hval]; simp [h]
  · intro h; rw [hval]; simp [h]
  · intro h1 h2 h3 h4; rw [hval, if_neg h1, if_neg h2, if_neg h3, if_neg h4]
  · simp [power_get_battery_percent]
  · intro dev hdev
    simp [power_get_battery_percent, ip5306_read_reg, hdev]
  · intro avail dev
    unfold power_get_battery_percent ip5306_read_reg
    cases avail
    · simp
    · cases hd : dev IP5306_REG_READ2 with
      | none => simp
      | some v =>
        simp only [Bool.not_true, Bool.false_eq_true, if_false]
        split_ifs <;> simp
  · intro dev val2 hdev hmod
    rw [hval]
    have hnib : val2 &&& 0x0F = val &&& 0x0F := by
      rw [and_15_eq_mod, and_15_eq_mod, hmod]
    simp [power_get_battery_percent, ip5306_read_reg, hdev, hnib]

theorem C10_battery_percent_step_function_witness :
    (fun reg : Nat => if reg = 0x78 then some 0xA7 else none) IP5306_REG_READ2 = some 0xA7 ∧
      power_get_battery_percent true (fun reg => if reg = 0x78 then some 0xA7 else none) = 75 :=
  ⟨by decide,
    (C10_battery_percent_step_function (fun reg => if reg = 0x78 then some 0xA7 else none)
      0xA7 (by decide)).2.1 (by decide)⟩

/-! ## Power management -/

/-- C11: `power_init` does not return `ESP_ERR_NOT_FOUND` when the probe read
fails: once the bus and the device are set up it returns `ESP_OK` whatever the
probe gives, and a failed probe only clears `s_available`. -/
theorem C11_power_init_returns_ok_on_failed_probe :
    (∀ (s_available : Bool) (i2c : Nat → Option Nat),
        (power_init s_available ESP_OK ESP_OK i2c).1 = ESP_OK) ∧
      power_init false ESP_OK ESP_OK (fun _ => none) = (ESP_OK, false) ∧
      power_init false ESP_OK ESP_OK (fun _ => none) ≠ (ESP_ERR_NOT_FOUND, false) ∧
      ESP_OK ≠ ESP_ERR_NOT_FOUND := by
  refine ⟨?_, by decide, by decide, by decide⟩
  intro s i2c
  unfold power_init ip5306_read_reg
  cases i2c IP5306_REG_READ0 <;> simp

/-- C14: the register addresses used by the code are not those of the
register map documented at the top of `power.c`: the charge status and the
probe are read from 0x70 (documented: 0x78) and the battery level from 0x78
(documented: 0x7A). On a device holding a full battery level at 0x7A and a
set charge-full flag at 0x78, the code reports 0 % and charging; a device
that answers only at 0x78 fails the probe. -/
theorem C14_register_addresses_differ_from_map :
    IP5306_REG_READ0 = 0x70 ∧ IP5306_REG_READ2 = 0x78 ∧
      IP5306_REG_READ0 ≠ REGISTER_MAP_READ0 ∧ IP5306_REG_READ2 ≠ REGISTER_MAP_READ2 ∧
      (∀ dev1 dev2 : Nat → Option Nat, dev1 0x78 = dev2 0x78 →
        power_get_battery_percent true dev1 = power_get_battery_percent true dev2) ∧
      (∀ dev1 dev2 : Nat → Option Nat, dev1 0x70 = dev2 0x70 →
        power_is_charging true dev1 = power_is_charging true dev2 ∧
          power_init false ESP_OK ESP_OK dev1 = power_init false ESP_OK ESP_OK dev2) ∧
      power_get_battery_percent true
          (fun reg => if reg = 0x7A then some 0x0F else if reg = 0x78 then some 0x08
            else if reg = 0x70 then some 0x00 else none) = 0 ∧
      power_is_charging true
          (fun reg => if reg = 0x7A then some 0x0F else if reg = 0x78 then some 0x08
            else if reg = 0x70 then some 0x00 else none) = true ∧
      power_init false ESP_OK ESP_OK (fun reg => if reg = 0x78 then some 0x00 else none)
        = (ESP_OK, false) := by
  refine ⟨rfl, rfl, by decide, by decide, ?_, ?_, by decide, by decide, by decide⟩
  · intro dev1 dev2 h
    have h2 : dev1 IP5306_REG_READ2 = dev2 IP5306_REG_READ2 := h
    simp only [power_get_battery_percent, ip5306_read_reg, h2]
  · intro dev1 dev2 h
    have h0 : dev1 IP5306_REG_READ0 = dev2 IP5306_REG_READ0 := h
    constructor
    · simp only [power_is_charging, ip5306_read_reg, h0]
    · simp only [power_init, ip5306_read_reg, h0]

/-! ## Successive polls -/

theorem mod_two_pow_succ_xor (x k : Nat) :
    x % 2 ^ (k + 1) = (x % 2 ^ k) ^^^ (if x.testBit k then 2 ^ k else 0) := by
  apply Nat.eq_of_testBit_eq
  intro j
  rw [Nat.testBit_xor, Nat.testBit_mod_two_pow, Nat.testBit_mod_two_pow]
  by_cases hb : x.testBit k = true
  · rw [if_pos hb, Nat.testBit_two_pow]
    rcases Nat.lt_trichotomy j k with h | h | h
    · have h1 : j < k + 1 := by omega
      have h2 : ¬ k = j := by omega
      simp [h, h1, h2]
    · subst h
      simp [hb]
    · have h1 : ¬ j < k + 1 := by omega
      have h2 : ¬ j < k := by omega
      have h3 : ¬ k = j := by omega
      simp [h1, h2, h3]
  · rw [if_neg hb, Nat.zero_testBit]
    simp only [Bool.not_eq_true] at hb
    rcases Nat.lt_trichotomy j k with h | h | h
    · have h1 : j < k + 1 := by omega
      simp [h, h1]
    · subst h
      simp [hb]
    · have h1 : ¬ j < k + 1 := by omega
      have h2 : ¬ j < k := by omega
      simp [h1, h2]

theorem foldl_xor_filter_testBit (x : Nat) (k : Nat) : ∀ m : Nat,
    ((List.range k).filter (fun i => x.testBit i)).foldl (fun m i => m ^^^ (1 <<< i)) m
      = m ^^^ (x % 2 ^ k) := by
  induction k with
  | zero => intro m; simp [Nat.mod_one]
  | succ k ih =>
    intro m
    rw [List.range_succ, List.filter_append, List.foldl_append, ih, mod_two_pow_succ_xor]
    by_cases hb : x.testBit k = true
    · simp [hb, Nat.one_shiftLeft, Nat.xor_assoc]
    · simp [hb]

theorem foldl_toggle_log_changes (state changed m : Nat) :
    (log_changes state changed).foldl toggle_event m = m ^^^ (changed % 2 ^ 12) := by
  have h := foldl_xor_filter_testBit changed 12 m
  rw [← log_changes_bits state changed, List.foldl_map] at h
  exact h

/-- Toggling the events of one iteration turns the previous mask into the
sample. -/
theorem foldl_toggle_poll_buttons (p c : Nat) (hp : p < 4096) (hc : c < 4096) :
    (poll_buttons p c).1.foldl toggle_event p = c ∧ (poll_buttons p c).2 = c := by
  unfold poll_buttons
  by_cases h : c = p
  · subst h; simp
  · rw [if_pos h]
    refine ⟨?_, rfl⟩
    show (log_changes c (to_uint16 (c ^^^ p))).foldl toggle_event p = c
    have hx : c ^^^ p < 2 ^ 12 :=
      Nat.xor_lt_two_pow (n := 12) (by simpa using hc) (by simpa using hp)
    rw [foldl_toggle_log_changes, to_uint16_of_lt _ (by omega), Nat.mod_eq_of_lt hx,
      Nat.xor_comm c p, Nat.xor_cancel_left]

theorem poll_buttons_snd (p c : Nat) : (poll_buttons p c).2 = c := by
  unfold poll_buttons
  by_cases h : c = p
  · subst h; simp
  · rw [if_pos h]

theorem poll_run_eq_zipWith (samples : List Nat) : ∀ prev : Nat,
    poll_run prev samples
      = List.zipWith (fun p c => (detect_changes p c, c)) (prev :: samples) samples := by
  induction samples with
  | nil => intro prev; simp [poll_run]
  | cons s rest ih =>
    intro prev
    rw [poll_run, List.zipWith_cons_cons, poll_buttons_snd, ih s]
    congr 1
    exact Prod.ext rfl (poll_buttons_snd prev s)

theorem foldl_toggle_poll_run (samples : List Nat) : ∀ prev : Nat, prev < 4096 →
    (∀ s ∈ samples, s < 4096) →
    ((poll_run prev samples).map Prod.fst).flatten.foldl toggle_event prev
      = samples.getLast?.getD prev := by
  induction samples with
  | nil => intro prev _ _; simp [poll_run]
  | cons s rest ih =>
    intro prev hprev hs
    have hs0 : s < 4096 := hs s (List.mem_cons_self _ _)
    have hrest : ∀ t ∈ rest, t < 4096 := fun t ht => hs t (List.mem_cons_of_mem _ ht)
    rw [poll_run, List.map_cons, List.flatten_cons, List.foldl_append,
      (foldl_toggle_poll_buttons prev s hprev hs0).1, poll_buttons_snd, ih s hs0 hrest]
    cases rest with
    | nil => simp
    | cons t rest2 =>
      rw [List.getLast?_cons_cons]
      cases hl : (t :: rest2).getLast? with
      | none => simp at hl
      | some v => simp

/-- C12: no change is absorbed across polls: for every sequence of 12-bit
samples fed to the loop from `prev_state = 0`, the lines of iteration `k` are
those of the comparison of sample `k` with sample `k - 1` (0 before the first
one), `prev_state` equals sample `k` after iteration `k`, and toggling in a
mask that starts empty the bit of every logged event, in logging order, gives
the last sample. -/
theorem C12_no_change_absorbed (samples : List Nat) (h12 : ∀ s ∈ samples, s < 4096) :
    poll_run 0 samples
        = List.zipWith (fun p c => (detect_changes p c, c)) (0 :: samples) samples ∧
      (poll_run 0 samples).map Prod.snd = samples ∧
      ((poll_run 0 samples).map Prod.fst).flatten.foldl toggle_event 0
        = samples.getLast?.getD 0 := by
  refine ⟨poll_run_eq_zipWith samples 0, ?_, foldl_toggle_poll_run samples 0 (by norm_num) h12⟩
  rw [poll_run_eq_zipWith]
  generalize (0 : Nat) = prev
  induction samples generalizing prev with
  | nil => simp
  | cons s rest ih =>
    rw [List.zipWith_cons_cons, List.map_cons]
    rw [ih (fun t ht => h12 t (List.mem_cons_of_mem _ ht)) s]

theorem C12_no_change_absorbed_witness :
    (∀ s ∈ ([1, 3, 2] : List Nat), s < 4096) ∧
      ((poll_run 0 [1, 3, 2]).map Prod.fst).flatten.foldl toggle_event 0
        = ([1, 3, 2] : List Nat).getLast?.getD 0 ∧
      poll_run 0 [1, 3, 2]
        = [([⟨0, true⟩], 1), ([⟨1, true⟩], 3), ([⟨0, false⟩], 2)] :=
  ⟨by decide, (C12_no_change_absorbed [1, 3, 2] (by decide)).2.2, by decide⟩

/-! ## Drawing -/

/-- The loop runs its body for `start`, `start + 1`, ... up to the bounds. -/
theorem loop_values_eq (bound1 bound2 : Int) : ∀ (n : Nat) (v : Int),
    loop_values bound1 bound2 n v
      = (List.range (min n (min bound1 bound2 - v).toNat)).map (fun k : Nat => v + (k : Int)) := by
  intro n
  induction n with
  | zero => intro v; simp [loop_values]
  | succ n ih =>
    intro v
    unfold loop_values
    by_cases hc : v < bound1 ∧ v < bound2
    · rw [if_pos hc, ih (v + 1)]
      have hlt : v < min bound1 bound2 := lt_min hc.1 hc.2
      have ht : (min bound1 bound2 - v).toNat = (min bound1 bound2 - (v + 1)).toNat + 1 := by
        omega
      rw [ht, Nat.succ_min_succ, List.range_succ_eq_map, List.map_cons, List.map_map]
      congr 1
      · simp
      · apply List.map_congr_left
        intro k _
        simp only [Function.comp, Nat.succ_eq_add_one, Nat.cast_add, Nat.cast_one]
        ring
    · rw [if_neg hc]
      have hle : min bound1 bound2 ≤ v := by
        rcases not_and_or.1 hc with h | h
        · exact le_trans (min_le_left _ _) (not_lt.1 h)
        · exact le_trans (min_le_right _ _) (not_lt.1 h)
      have ht : (min bound1 bound2 - v).toNat = 0 := by omega
      simp [ht]

theorem mem_loop_values (bound1 bound2 : Int) (n : Nat) (v r : Int) :
    r ∈ loop_values bound1 bound2 n v ↔ v ≤ r ∧ r < bound1 ∧ r < bound2 ∧ r < v + n := by
  rw [loop_values_eq]
  simp only [List.mem_map, List.mem_range, lt_min_iff]
  constructor
  · rintro ⟨k, ⟨hk1, hk2⟩, rfl⟩
    have : (k : Int) < min bound1 bound2 - v := by omega
    have h1 := lt_of_lt_of_le this (sub_le_sub_right (min_le_left bound1 bound2) v)
    have h2 := lt_of_lt_of_le this (sub_le_sub_right (min_le_right bound1 bound2) v)
    omega
  · rintro ⟨h1, h2, h3, h4⟩
    refine ⟨(r - v).toNat, ⟨by omega, ?_⟩, by omega⟩
    have : r < min bound1 bound2 := lt_min h2 h3
    omega

/-- The calls made by `draw_status` when `10 + row * 50 + 40` fits an `int`. -/
theorem mem_draw_status (row : Int) (color : Nat) (h0 : 0 ≤ row)
    (hrange : 10 + row * 50 + 40 ≤ 2147483647) (d : DrawBitmap) :
    d ∈ draw_status true true row color ↔
      ∃ r : Int, 10 + 50 * row ≤ r ∧ r < 10 + 50 * row + 40 ∧ r < 480 ∧
        d = ⟨10, r, 310, r + 1, List.replicate 300 (some color)⟩ := by
  unfold draw_status draw_rect
  have hw1 : wrap_int32 (row * 50) = row * 50 := by unfold wrap_int32; omega
  have hw2 : wrap_int32 (10 + row * 50) = 10 + row * 50 := by unfold wrap_int32; omega
  have hw3 : wrap_int32 (10 + row * 50 + 40) = 10 + row * 50 + 40 := by unfold wrap_int32; omega
  have hw4 : wrap_int32 (10 + 300) = 310 := by decide
  have hv : ((LCD_V_RES : Nat) : Int) = 480 := rfl
  simp only [Bool.not_true, Bool.false_eq_true, if_false, hw1, hw2, hw3, hw4, hv,
    List.mem_map, mem_loop_values]
  constructor
  · rintro ⟨r, ⟨h1, h2, h3, _⟩, rfl⟩
    exact ⟨r, by omega, by omega, h3, rfl⟩
  · rintro ⟨r, h1, h2, h3, rfl⟩
    exact ⟨r, ⟨by omega, by omega, h3, by simp; omega⟩, rfl⟩

theorem draw_rect_no_panel (alloc_ok : Bool) (x y w h : Int) (color : Nat) :
    draw_rect false alloc_ok x y w h color = [] := by
  simp [draw_rect]

theorem draw_rect_no_buffer (panel : Bool) (x y w h : Int) (color : Nat) :
    draw_rect panel false x y w h color = [] := by
  cases panel <;> simp [draw_rect]

/-- C13: status indicators are clamped to the surface: for a non-negative
`row` (with `10 + row * 50 + 40` within `int`), `draw_status(row, colour)`
draws exactly the scanlines `r` with `10 + 50 * row <= r < 10 + 50 * row + 40`
and `r < 480`, each as the window `[10, 310) x [r, r + 1)` of 300 words of the
colour; so every scanline drawn is below `LCD_V_RES = 480`, a row of 10 or
more draws nothing, and with no panel attached (or no buffer) nothing is drawn
and the call returns. -/
theorem C13_draw_status_clamped (row : Int) (color : Nat) (h0 : 0 ≤ row)
    (hrange : 10 + row * 50 + 40 ≤ 2147483647) :
    (∀ d : DrawBitmap, d ∈ draw_status true true row color ↔
        ∃ r : Int, 10 + 50 * row ≤ r ∧ r < min (10 + 50 * row + 40) 480 ∧
          d = ⟨10, r, 310, r + 1, List.replicate 300 (some color)⟩) ∧
      (∀ (panel alloc_ok : Bool), ∀ d ∈ draw_status panel alloc_ok row color,
        0 ≤ d.y_start ∧ d.y_start < (LCD_V_RES : Int) ∧ d.y_end ≤ (LCD_V_RES : Int) ∧
          0 ≤ d.x_start ∧ d.x_end ≤ (LCD_H_RES : Int)) ∧
      (10 ≤ row → ∀ (panel alloc_ok : Bool), draw_status panel alloc_ok row color = []) ∧
      (∀ alloc_ok : Bool, draw_status false alloc_ok row color = []) ∧
      (∀ panel : Bool, draw_status panel false row color = []) := by
  have hnone : ∀ alloc_ok : Bool, draw_status false alloc_ok row color = [] :=
    fun a => draw_rect_no_panel a _ _ _ _ _
  have hnobuf : ∀ panel : Bool, draw_status panel false row color = [] :=
    fun p => draw_rect_no_buffer p _ _ _ _ _
  refine ⟨?_, ?_, ?_, hnone, hnobuf⟩
  · intro d
    rw [mem_draw_status row color h0 hrange]
    constructor
    · rintro ⟨r, h1, h2, h3, rfl⟩
      exact ⟨r, h1, lt_min h2 h3, rfl⟩
    · rintro ⟨r, h1, h2, rfl⟩
      exact ⟨r, h1, lt_of_lt_of_le h2 (min_le_left _ _), lt_of_lt_of_le h2 (min_le_right _ _), rfl⟩
  · intro panel alloc_ok d hd
    cases panel
    · rw [hnone] at hd; simp at hd
    · cases alloc_ok
      · rw [hnobuf] at hd; simp at hd
      · obtain ⟨r, h1, h2, h3, rfl⟩ := (mem_draw_status row color h0 hrange d).1 hd
        have hv : ((LCD_V_RES : Nat) : Int) = 480 := rfl
        have hh : ((LCD_H_RES : Nat) : Int) = 320 := rfl
        simp only [hv, hh]
        omega
  · intro h10 panel alloc_ok
    cases panel
    · exact hnone _
    · cases alloc_ok
      · exact hnobuf _
      · apply List.eq_nil_iff_forall_not_mem.2
        intro d hd
        obtain ⟨r, h1, h2, h3, rfl⟩ := (mem_draw_status row color h0 hrange d).1 hd
        omega

theorem C13_draw_status_clamped_witness :
    (0 : Int) ≤ 9 ∧ (10 : Int) + 9 * 50 + 40 ≤ 2147483647 ∧
      (draw_status true true 9 COLOR_GREEN).map DrawBitmap.y_start
        = [460, 461, 462, 463, 464, 465, 466, 467, 468, 469,
            470, 471, 472, 473, 474, 475, 476, 477, 478, 479] ∧
      (∀ alloc_ok : Bool, draw_status false alloc_ok 9 COLOR_GREEN = []) :=
  ⟨by decide, by decide, by decide,
    (C13_draw_status_clamped 9 COLOR_GREEN (by decide) (by decide)).2.2.2.1⟩

/-! ## The colour bars -/

set_option maxRecDepth 1000000 in
theorem color_bars_stores_eq :
    color_bars_stores
      = (List.range 320).map (fun x : Nat => ((x : Int), colors.getD (x / 40) 0)) := by
  decide

set_option maxRecDepth 1000000 in
theorem color_bars_row_eq :
    color_bars_row = (List.range 320).map (fun x : Nat => some (colors.getD (x / 40) 0)) := by
  decide

/-- C15: `display_draw_color_bars` fills the whole row before blitting: with
the buffer allocated, every pixel `x` of `0..319` holds `colors[x / 40]`,
`colors` being red, green, blue, white, black, cyan, magenta, yellow; the
stores go to the indices `0, 1, ..., 319`, each once and none at 320 or more;
the same row is drawn on every scanline `0..479` and `ESP_OK` is returned.
Without the buffer `ESP_ERR_NO_MEM` is returned and nothing is drawn. -/
theorem C15_color_bars_row (x : Nat) (hx : x < 320) :
    (∃ c : Nat, colors[x / 40]? = some c ∧ color_bars_row[x]? = some (some c)) ∧
      colors = [0xF800, 0x07E0, 0x001F, 0xFFFF, 0x0000, 0x07FF, 0xF81F, 0xFFE0] ∧
      bar_width = 40 ∧
      color_bars_row.length = 320 ∧
      color_bars_stores.map Prod.fst = (List.range 320).map (fun k : Nat => (k : Int)) ∧
      (∀ s ∈ color_bars_stores, 0 ≤ s.1 ∧ s.1 < 320) ∧
      display_draw_color_bars true
        = (ESP_OK, (List.range 480).map
            (fun y : Nat => (⟨0, y, 320, (y : Int) + 1, color_bars_row⟩ : DrawBitmap))) ∧
      display_draw_color_bars false = (ESP_ERR_NO_MEM, []) := by
  have hq : x / 40 < 8 := by omega
  refine ⟨?_, rfl, by decide, ?_, ?_, ?_, ?_, rfl⟩
  · refine ⟨colors.getD (x / 40) 0, ?_, ?_⟩
    · have hlen : colors.length = 8 := rfl
      rw [List.getD_eq_getElem?_getD, List.getElem?_eq_getElem (by omega)]
      simp
    · rw [color_bars_row_eq, List.getElem?_map, List.getElem?_range hx]
      rfl
  · rw [color_bars_row_eq]; simp
  · rw [color_bars_stores_eq, List.map_map]
    rfl
  · intro s hs
    rw [color_bars_stores_eq] at hs
    simp only [List.mem_map, List.mem_range] at hs
    obtain ⟨k, hk, rfl⟩ := hs
    simp only
    omega
  · simp only [display_draw_color_bars, LCD_V_RES, LCD_H_RES, Bool.not_true,
      Bool.false_eq_true, if_false, Nat.cast_ofNat]

theorem C15_color_bars_row_witness :
    (85 : Nat) < 320 ∧ colors[85 / 40]? = some 0x001F ∧
      (∃ c : Nat, colors[85 / 40]? = some c ∧ color_bars_row[85]? = some (some c)) :=
  ⟨by decide, by decide, (C15_color_bars_row 85 (by decide)).1⟩

/-! ## The button indicators -/

/-- A rectangle that needs no clamping is drawn line by line. -/
theorem draw_rect_eq (x y w h : Int) (color : Nat) (hy : y + h ≤ 480)
    (hy0 : -2147483648 ≤ y + h) (hx : -2147483648 ≤ x + w ∧ x + w ≤ 2147483647) :
    draw_rect true true x y w h color
      = (List.range h.toNat).map (fun k : Nat =>
          (⟨x, y + k, x + w, y + k + 1, List.replicate w.toNat (some color)⟩ : DrawBitmap)) := by
  unfold draw_rect
  have hw1 : wrap_int32 (y + h) = y + h := by unfold wrap_int32; omega
  have hw2 : wrap_int32 (x + w) = x + w := by unfold wrap_int32; omega
  have hv : ((LCD_V_RES : Nat) : Int) = 480 := rfl
  simp only [Bool.not_true, Bool.false_eq_true, if_false, hw1, hw2, hv]
  rw [loop_values_eq, List.map_map]
  have hmin : min h.toNat (min (y + h) 480 - y).toNat = h.toNat := by
    rw [min_eq_left hy]
    have : (y + h - y).toNat = h.toNat := by congr 1; ring
    rw [this, min_self]
  rw [hmin]
  rfl

theorem draw_button_indicator_eq (state i : Nat) (hi : i < 12) :
    draw_button_indicator true true state i
      = (List.range 20).map (fun k : Nat =>
          (⟨10 + ((i % 6 : Nat) : Int) * 50, 420 + ((i / 6 : Nat) : Int) * 25 + k,
            10 + ((i % 6 : Nat) : Int) * 50 + 40, 420 + ((i / 6 : Nat) : Int) * 25 + k + 1,
            List.replicate 40 (some (if state.testBit i then COLOR_CYAN else COLOR_BLACK))⟩ :
            DrawBitmap)) := by
  unfold draw_button_indicator
  have hv : ((LCD_V_RES : Nat) : Int) - 60 = 420 := rfl
  have hm : ((i : Int) % 6) = ((i % 6 : Nat) : Int) := by omega
  have hd : ((i : Int) / 6) = ((i / 6 : Nat) : Int) := by omega
  have hcol : (if state &&& (1 <<< i) ≠ 0 then COLOR_CYAN else COLOR_BLACK)
      = (if state.testBit i then COLOR_CYAN else COLOR_BLACK) := by
    by_cases hb : state.testBit i = true
    · rw [if_pos ((and_one_shiftLeft_ne_zero state i).2 hb), if_pos hb]
    · rw [if_neg (fun hc => hb ((and_one_shiftLeft_ne_zero state i).1 hc)), if_neg hb]
  simp only [hv, hm, hd, hcol]
  rw [draw_rect_eq _ _ _ _ _ (by omega) (by omega) (by omega)]
  rfl

theorem mem_draw_button_indicator (state i : Nat) (hi : i < 12) (d : DrawBitmap) :
    d ∈ draw_button_indicator true true state i ↔
      ∃ k : Nat, k < 20 ∧
        d = ⟨10 + ((i % 6 : Nat) : Int) * 50, 420 + ((i / 6 : Nat) : Int) * 25 + k,
          10 + ((i % 6 : Nat) : Int) * 50 + 40, 420 + ((i / 6 : Nat) : Int) * 25 + k + 1,
          List.replicate 40 (some (if state.testBit i then COLOR_CYAN else COLOR_BLACK))⟩ := by
  rw [draw_button_indicator_eq state i hi]
  simp only [List.mem_map, List.mem_range]
  constructor
  · rintro ⟨k, hk, rfl⟩; exact ⟨k, hk, rfl⟩
  · rintro ⟨k, hk, rfl⟩; exact ⟨k, hk, rfl⟩

/-- C16: the indicator of button `i` (below 12) is the rectangle of origin
`x = 10 + (i mod 6) * 50`, `y = 420 + (i div 6) * 25` and size 40 x 20, drawn
as 20 lines of 40 words; it lies inside the 320 x 480 surface, is disjoint
from the indicator of every other button and lies below the scanlines
`10..249` of the status rows 0..4; it is cyan if and only if bit `i` of the
current mask is set, black otherwise. The twelve indicators are drawn in the
iterations where the sample differs from `prev_state`. -/
theorem C16_button_indicator_layout (state i : Nat) (hi : i < 12) :
    draw_button_indicator true true state i
        = (List.range 20).map (fun k : Nat =>
            (⟨10 + ((i % 6 : Nat) : Int) * 50, 420 + ((i / 6 : Nat) : Int) * 25 + k,
              10 + ((i % 6 : Nat) : Int) * 50 + 40, 420 + ((i / 6 : Nat) : Int) * 25 + k + 1,
              List.replicate 40 (some (if state.testBit i then COLOR_CYAN else COLOR_BLACK))⟩ :
              DrawBitmap)) ∧
      (∀ d ∈ draw_button_indicator true true state i,
        0 ≤ d.x_start ∧ d.x_end ≤ (LCD_H_RES : Int) ∧ 0 ≤ d.y_start ∧
          d.y_end ≤ (LCD_V_RES : Int)) ∧
      (∀ j : Nat, j < 12 → j ≠ i →
        ∀ d ∈ draw_button_indicator true true state i,
        ∀ e ∈ draw_button_indicator true true state j,
          d.x_end ≤ e.x_start ∨ e.x_end ≤ d.x_start ∨ d.y_end ≤ e.y_start ∨
            e.y_end ≤ d.y_start) ∧
      (∀ (row : Int) (color : Nat), 0 ≤ row → row ≤ 4 →
        ∀ e ∈ draw_status true true row color,
        ∀ d ∈ draw_button_indicator true true state i,
          10 ≤ e.y_start ∧ e.y_start ≤ 249 ∧ e.y_end ≤ d.y_start) ∧
      (∀ d ∈ draw_button_indicator true true state i,
        (d.color_data = List.replicate 40 (some COLOR_CYAN) ↔ state.testBit i = true) ∧
          (d.color_data = List.replicate 40 (some COLOR_BLACK) ↔ state.testBit i = false)) ∧
      (∀ prev_state : Nat, state ≠ prev_state →
        poll_display true (fun _ => true) prev_state state
          = (List.range 12).flatMap (fun j => draw_button_indicator true true state j)) := by
  have hv : ((LCD_V_RES : Nat) : Int) = 480 := rfl
  have hh : ((LCD_H_RES : Nat) : Int) = 320 := rfl
  refine ⟨draw_button_indicator_eq state i hi, ?_, ?_, ?_, ?_, ?_⟩
  · intro d hd
    obtain ⟨k, hk, rfl⟩ := (mem_draw_button_indicator state i hi d).1 hd
    simp only [hv, hh]
    omega
  · intro j hj hji d hd e he
    obtain ⟨k, hk, rfl⟩ := (mem_draw_button_indicator state i hi d).1 hd
    obtain ⟨l, hl, rfl⟩ := (mem_draw_button_indicator state j hj e).1 he
    simp only
    omega
  · intro row color h0 h4 e he d hd
    obtain ⟨k, hk, rfl⟩ := (mem_draw_button_indicator state i hi d).1 hd
    obtain ⟨r, h1, h2, h3, rfl⟩ := (mem_draw_status row color h0 (by omega) e).1 he
    simp only
    omega
  · intro d hd
    obtain ⟨k, hk, rfl⟩ := (mem_draw_button_indicator state i hi d).1 hd
    cases hb : state.testBit i <;> simp [COLOR_CYAN, COLOR_BLACK]
  · intro prev hne
    simp [poll_display, draw_button_indicators, hne]

theorem C16_button_indicator_layout_witness :
    (4 : Nat) < 12 ∧
      (draw_button_indicator true true 0b10000 4).head?
        = some ⟨210, 420, 250, 421, List.replicate 40 (some COLOR_CYAN)⟩ ∧
      (∀ d ∈ draw_button_indicator true true 0b10000 4,
        0 ≤ d.x_start ∧ d.x_end ≤ (LCD_H_RES : Int) ∧ 0 ≤ d.y_start ∧
          d.y_end ≤ (LCD_V_RES : Int)) :=
  ⟨by decide, by decide, (C16_button_indicator_layout 0b10000 4 (by decide)).2.1⟩

end Esp32EmuTurbo
